import Mathlib

/-!
Verification of the rendering core of lines-are-rusty
(src/render/renderlib.rs): bounding-box accumulation, stroke quad
geometry, and color resolution.

Numbers: the code computes over `f32`. We model `f32` values by the type
`F` below: `nan`, the two infinities, and finite values represented as
exact rationals. Arithmetic follows IEEE-754 semantics for the special
values (NaN propagation, `inf - inf = nan`, `0 * inf = nan`, division by
zero, ...) and is exact on finite values; `fmin`/`fmax` follow Rust's
`f32::min`/`f32::max`, which return the other operand when one argument
is NaN. This idealizes away binary rounding (no claim under scrutiny
depends on rounding) and the sign of zero.
-/

namespace LinesAreRusty

/-- Model of an `f32` value: NaN, negative infinity, a finite value
(as an exact rational), or positive infinity. -/
inductive F where
  | nan : F
  | ninf : F
  | fin : ℚ → F
  | inf : F
deriving DecidableEq, Repr

/-- IEEE negation on the `f32` model. -/
def fneg : F → F
  | F.nan => F.nan
  | F.ninf => F.inf
  | F.fin q => F.fin (-q)
  | F.inf => F.ninf

/-- IEEE addition on the `f32` model (exact on finite values). -/
def fadd : F → F → F
  | F.nan, _ => F.nan
  | F.ninf, F.nan => F.nan
  | F.ninf, F.ninf => F.ninf
  | F.ninf, F.fin _ => F.ninf
  | F.ninf, F.inf => F.nan
  | F.fin _, F.nan => F.nan
  | F.fin _, F.ninf => F.ninf
  | F.fin p, F.fin q => F.fin (p + q)
  | F.fin _, F.inf => F.inf
  | F.inf, F.nan => F.nan
  | F.inf, F.ninf => F.nan
  | F.inf, F.fin _ => F.inf
  | F.inf, F.inf => F.inf

/-- IEEE subtraction on the `f32` model. -/
def fsub (a b : F) : F := fadd a (fneg b)

/-- IEEE multiplication on the `f32` model (exact on finite values;
`0 * inf = nan`). -/
def fmul : F → F → F
  | F.nan, _ => F.nan
  | _, F.nan => F.nan
  | F.ninf, F.ninf => F.inf
  | F.ninf, F.fin q => if q < 0 then F.inf else if q = 0 then F.nan else F.ninf
  | F.ninf, F.inf => F.ninf
  | F.fin p, F.ninf => if p < 0 then F.inf else if p = 0 then F.nan else F.ninf
  | F.fin p, F.fin q => F.fin (p * q)
  | F.fin p, F.inf => if p < 0 then F.ninf else if p = 0 then F.nan else F.inf
  | F.inf, F.ninf => F.ninf
  | F.inf, F.fin q => if q < 0 then F.ninf else if q = 0 then F.nan else F.inf
  | F.inf, F.inf => F.inf

/-- IEEE division on the `f32` model. The model has a single zero, so
`p / 0` with `p > 0` is `inf` (as for `+0.0` in `f32`). -/
def fdiv : F → F → F
  | F.nan, _ => F.nan
  | _, F.nan => F.nan
  | F.ninf, F.ninf => F.nan
  | F.ninf, F.inf => F.nan
  | F.ninf, F.fin q => if q < 0 then F.inf else F.ninf
  | F.fin _, F.ninf => F.fin 0
  | F.fin p, F.fin q =>
      if q = 0 then (if p = 0 then F.nan else if p < 0 then F.ninf else F.inf)
      else F.fin (p / q)
  | F.fin _, F.inf => F.fin 0
  | F.inf, F.ninf => F.nan
  | F.inf, F.fin q => if q < 0 then F.ninf else F.inf
  | F.inf, F.inf => F.nan

/-- Exact integer square root: the largest `r` with `r * r ≤ n`,
computed by a bounded search so the kernel can evaluate it. -/
def natSqrt (n : ℕ) : ℕ :=
  ((List.range (n + 1)).filter (fun r => r * r ≤ n)).foldl max 0

/-- Square root on nonnegative rationals. Exact whenever the argument is
the square of a rational (then its reduced numerator and denominator are
perfect squares); off perfect squares the value is approximate, as `f32`
square root itself is. No claim below depends on a non-perfect-square
root. -/
def ratSqrt (q : ℚ) : ℚ :=
  (natSqrt q.num.toNat : ℚ) / (natSqrt q.den : ℚ)

/-- IEEE square root on the `f32` model: NaN on negative arguments. -/
def fsqrt : F → F
  | F.nan => F.nan
  | F.ninf => F.nan
  | F.fin q => if q < 0 then F.nan else F.fin (ratSqrt q)
  | F.inf => F.inf

/-- Rust `f32::min`: when one argument is NaN the other is returned,
otherwise the usual minimum with `-inf < finite < inf`. -/
def fmin : F → F → F
  | F.nan, b => b
  | F.ninf, F.nan => F.ninf
  | F.ninf, F.ninf => F.ninf
  | F.ninf, F.fin _ => F.ninf
  | F.ninf, F.inf => F.ninf
  | F.fin p, F.nan => F.fin p
  | F.fin _, F.ninf => F.ninf
  | F.fin p, F.fin q => F.fin (min p q)
  | F.fin p, F.inf => F.fin p
  | F.inf, F.nan => F.inf
  | F.inf, F.ninf => F.ninf
  | F.inf, F.fin q => F.fin q
  | F.inf, F.inf => F.inf

/-- Rust `f32::max`: when one argument is NaN the other is returned,
otherwise the usual maximum. -/
def fmax : F → F → F
  | F.nan, b => b
  | F.ninf, F.nan => F.ninf
  | F.ninf, F.ninf => F.ninf
  | F.ninf, F.fin q => F.fin q
  | F.ninf, F.inf => F.inf
  | F.fin p, F.nan => F.fin p
  | F.fin p, F.ninf => F.fin p
  | F.fin p, F.fin q => F.fin (max p q)
  | F.fin _, F.inf => F.inf
  | F.inf, F.nan => F.inf
  | F.inf, F.ninf => F.inf
  | F.inf, F.fin _ => F.inf
  | F.inf, F.inf => F.inf

/-- IEEE `<=` comparison on the `f32` model: any comparison involving
NaN is false. -/
def fle : F → F → Bool
  | F.nan, _ => false
  | _, F.nan => false
  | F.ninf, _ => true
  | F.fin _, F.ninf => false
  | F.fin p, F.fin q => decide (p ≤ q)
  | F.fin _, F.inf => true
  | F.inf, F.ninf => false
  | F.inf, F.fin _ => false
  | F.inf, F.inf => true

/-- A stroke sample: coordinates, stroke diameter at this sample, and
pressure (carried but unused by the geometry). Declared in the library
crate outside src/; the fields are those the spec's data model names and
src/ uses (`x`, `y`, `width`). -/
structure Point where
  x : F
  y : F
  width : F
  pressure : F
deriving DecidableEq, Repr

instance : Inhabited Point := ⟨⟨F.fin 0, F.fin 0, F.fin 0, F.fin 0⟩⟩

/-- The nine semantic color slots, exactly the variants matched in
`line_to_css_color` in src/. -/
inductive Color where
  | black | grey | white | blue | red | yellow | green | pink | gray_overlapping
deriving DecidableEq, Repr

/-- Modelled from the spec: the `BrushType` enum is declared in the
library crate outside src/. The spec describes it as the "enumerated
pen/highlighter/eraser family"; src/ evidences the `Highlighter` variant
and (through the wildcard match arm) at least one other. -/
inductive BrushType where
  | pen | highlighter | eraser
deriving DecidableEq, Repr

/-- A stroke: ordered points plus semantic color and brush type.
Declared in the library crate outside src/; fields are those src/ uses
(`points`, `color`, `brush_type`). -/
structure Line where
  points : List Point
  color : Color
  brush_type : BrushType
deriving DecidableEq, Repr

/-- Modelled from the spec: a layer is an ordered sequence of lines
(spec data model); src/ iterates `layer.lines`. -/
structure Layer where
  lines : List Line
deriving DecidableEq, Repr

/-- Modelled from the spec: a page is an ordered sequence of layers
(spec data model); src/ iterates `page.layers`. -/
structure Page where
  layers : List Layer
deriving DecidableEq, Repr

/-- One concrete color string per semantic color slot, for one layer.
The nine string fields are exactly those read in src/ (renderlib.rs and
main.rs). -/
structure LayerColor where
  black : String
  grey : String
  white : String
  blue : String
  red : String
  yellow : String
  green : String
  pink : String
  gray_overlapping : String
deriving DecidableEq, Repr

/-- The structurally-default `LayerColor` produced by Rust's
`#[derive(Default)]`: every `String` field defaults to the empty
string. -/
def LayerColor.default : LayerColor := ⟨"", "", "", "", "", "", "", "", ""⟩

/-- Axis-aligned bounding box, from renderlib.rs. -/
structure BoundingBox where
  min_x : F
  min_y : F
  max_x : F
  max_y : F
deriving DecidableEq, Repr

/-- `BoundingBox::new`: the empty-box sentinel
(+inf, +inf, -inf, -inf). -/
def BoundingBox.new : BoundingBox := ⟨F.inf, F.inf, F.ninf, F.ninf⟩

/-- `BoundingBox::enclose_point`: expand the box to cover the square of
radius `0.5 * width` around the point. -/
def BoundingBox.enclose_point (b : BoundingBox) (point : Point) : BoundingBox :=
  let radius := fmul (F.fin (1/2)) point.width
  { min_x := fmin b.min_x (fsub point.x radius)
    min_y := fmin b.min_y (fsub point.y radius)
    max_x := fmax b.max_x (fadd point.x radius)
    max_y := fmax b.max_y (fadd point.y radius) }

/-- `BoundingBox::enclose_line`: fold `enclose_point` over the line's
points in order. -/
def BoundingBox.enclose_line (b : BoundingBox) (line : Line) : BoundingBox :=
  line.points.foldl BoundingBox.enclose_point b

/-- `BoundingBox::enclose_page`: fold `enclose_line` over every line of
every layer in order. -/
def BoundingBox.enclose_page (b : BoundingBox) (page : Page) : BoundingBox :=
  page.layers.foldl (fun b layer => layer.lines.foldl BoundingBox.enclose_line b) b

/-- `line_to_css_color` from renderlib.rs: palette lookup at the layer
index with fall-back to the structurally-default `LayerColor`, then the
highlighter override, then selection by semantic color. -/
def line_to_css_color (line : Line) (layer_idx : ℕ) (layer_colors : List LayerColor) : String :=
  let lc := (layer_colors[layer_idx]?).getD LayerColor.default
  match line.brush_type with
  | BrushType.highlighter => "rgb(240, 220, 40)"
  | _ =>
    match line.color with
    | Color.black => lc.black
    | Color.grey => lc.grey
    | Color.white => lc.white
    | Color.blue => lc.blue
    | Color.red => lc.red
    | Color.yellow => lc.yellow
    | Color.green => lc.green
    | Color.pink => lc.pink
    | Color.gray_overlapping => lc.gray_overlapping

/-- A 2-D displacement vector. -/
structure Vec2 where
  x : F
  y : F
deriving DecidableEq, Repr

/-- The list of consecutive point pairs (segments) of a list. -/
def consPairs {α : Type} : List α → List (α × α)
  | [] => []
  | [_] => []
  | a :: b :: rest => (a, b) :: consPairs (b :: rest)

/-- Modelled from the spec: `Line::offsets` is declared in the library
crate outside src/. Per spec §4.2 and §9: one displacement per
consecutive point pair; direction `d = p[i+1] - p[i]` normalized,
rotated 90° counter-clockwise ((x, y) to (-y, x)), scaled to the target
distance; for a degenerate zero-length segment the zero-vector fallback
recommended by the spec. -/
def Line.offsets (line : Line) (offset_distance : F) : List Vec2 :=
  (consPairs line.points).map fun pq =>
    let dx := fsub pq.2.x pq.1.x
    let dy := fsub pq.2.y pq.1.y
    let len := fsqrt (fadd (fmul dx dx) (fmul dy dy))
    if len = F.fin 0 then ⟨F.fin 0, F.fin 0⟩
    else ⟨fmul (fdiv (fneg dy) len) offset_distance,
          fmul (fdiv dx len) offset_distance⟩

/-- The 8 coordinates of one segment quad, in the order the code's
`extend_from_slice` emits them: p1+offset, p2+offset, p2-offset,
p1-offset. -/
def quadCoords (p1 p2 : Point) (offset : Vec2) : List F :=
  [fadd p1.x offset.x, fadd p1.y offset.y,
   fadd p2.x offset.x, fadd p2.y offset.y,
   fsub p2.x offset.x, fsub p2.y offset.y,
   fsub p1.x offset.x, fsub p1.y offset.y]

/-- `segment_quads` from renderlib.rs. `none` models the panic the code
hits on a zero-point line: the fold's initial accumulator
`Vec::with_capacity(8 * (points.len() - 1))` is evaluated eagerly, and
for `points.len() = 0` the `usize` subtraction overflows (debug builds
panic with subtract-overflow; release builds wrap, and the resulting
near-`usize::MAX` capacity makes `Vec::with_capacity` abort with a
capacity overflow). On a nonempty line the fold pairs offset `i` with
points `i` and `i+1`, which is the zip of consecutive pairs with the
offsets (the spec guarantees one offset per segment). -/
def segment_quads (line : Line) : Option (List F) :=
  if line.points.isEmpty then none
  else
    let offset_distance := fmul (line.points.headD default).width (F.fin (1/2))
    let offsets := line.offsets offset_distance
    some (((consPairs line.points).zip offsets).foldl
      (fun coords x => coords ++ quadCoords x.1.1 x.1.2 x.2) [])

/-- The reference line of the in-source test `test_segment_quads`:
width 10.0 through (0,0), (3,4), (6,4). -/
def referenceLine : Line :=
  { points := [⟨F.fin 0, F.fin 0, F.fin 10, F.fin 0⟩,
               ⟨F.fin 3, F.fin 4, F.fin 10, F.fin 0⟩,
               ⟨F.fin 6, F.fin 4, F.fin 10, F.fin 0⟩],
    color := Color.black, brush_type := BrushType.pen }

/-- A line with no points at all. -/
def emptyLine : Line := { points := [], color := Color.black, brush_type := BrushType.pen }

/-- A line with exactly one point. -/
def singlePointLine : Line :=
  { points := [⟨F.fin 1, F.fin 2, F.fin 3, F.fin 0⟩],
    color := Color.black, brush_type := BrushType.pen }

/-- A sample point for the permutation witness. -/
def permPointA : Point := ⟨F.fin 0, F.fin 0, F.fin 2, F.fin 0⟩

/-- A second sample point for the permutation witness. -/
def permPointB : Point := ⟨F.fin 5, F.fin 1, F.fin 4, F.fin 0⟩

/-- A page contains no points: every line of every layer is empty. -/
def Page.noPoints (page : Page) : Prop :=
  ∀ layer ∈ page.layers, ∀ line ∈ layer.lines, line.points = []

/-- A bounding box none of whose fields is NaN. -/
def BoundingBox.noNaN (b : BoundingBox) : Prop :=
  b.min_x ≠ F.nan ∧ b.min_y ≠ F.nan ∧ b.max_x ≠ F.nan ∧ b.max_y ≠ F.nan

/-- Box b2 covers at least box b1: its minima are at most b1's minima
and its maxima at least b1's maxima, in the IEEE order `fle`. -/
def grows (b1 b2 : BoundingBox) : Prop :=
  fle b2.min_x b1.min_x = true ∧ fle b2.min_y b1.min_y = true ∧
  fle b1.max_x b2.max_x = true ∧ fle b1.max_y b2.max_y = true

/-- One accumulation step: enclose a point, a line, or a page. -/
inductive EncloseOp where
  | pt : Point → EncloseOp
  | ln : Line → EncloseOp
  | pg : Page → EncloseOp

/-- Apply one enclose operation to a box. -/
def applyOp (b : BoundingBox) : EncloseOp → BoundingBox
  | EncloseOp.pt p => b.enclose_point p
  | EncloseOp.ln l => b.enclose_line l
  | EncloseOp.pg p => b.enclose_page p

/-- Every contribution of every point of the page is NaN: each of the
four values x ± radius, y ± radius (radius = 0.5 * width) is NaN, as
happens e.g. when the width is NaN or both coordinates are NaN. -/
def Page.allContributionsNaN (page : Page) : Prop :=
  ∀ layer ∈ page.layers, ∀ line ∈ layer.lines, ∀ pt ∈ line.points,
    fsub pt.x (fmul (F.fin (1/2)) pt.width) = F.nan ∧
    fsub pt.y (fmul (F.fin (1/2)) pt.width) = F.nan ∧
    fadd pt.x (fmul (F.fin (1/2)) pt.width) = F.nan ∧
    fadd pt.y (fmul (F.fin (1/2)) pt.width) = F.nan

/-- A point whose width is NaN, so all four of its contributions are
NaN. -/
def nanPoint : Point := ⟨F.fin 1, F.fin 2, F.nan, F.fin 0⟩

/- The Batteries rational operations are `@[irreducible]`, which blocks
the elaborator's evaluation of closed rational arithmetic; the kernel
ignores reducibility annotations, so making them semireducible for this
file changes nothing about what the kernel accepts. -/
attribute [local semireducible] Rat.add Rat.mul Rat.inv Rat.sub Rat.ofScientific

/-- C1: for the line of width 10.0 through (0,0), (3,4), (6,4),
`segment_quads` returns exactly the 16 coordinates
[-4,3, -1,7, 7,1, 4,-3] (segment 1: p1+offset, p2+offset, p2-offset,
p1-offset) followed by [3,9, 6,9, 6,-1, 3,-1] (segment 2), i.e. the
per-segment offset is the segment direction normalized, rotated 90°
counter-clockwise, and scaled to half the first point's width. -/
theorem segment_quads_reference_geometry :
    segment_quads referenceLine =
      some [F.fin (-4), F.fin 3, F.fin (-1), F.fin 7,
            F.fin 7, F.fin 1, F.fin 4, F.fin (-3),
            F.fin 3, F.fin 9, F.fin 6, F.fin 9,
            F.fin 6, F.fin (-1), F.fin 3, F.fin (-1)] := by
  decide

/-- C2 (code bug evidence): on a zero-point line `segment_quads` does
not return an empty sequence — it panics (modelled by `none`): the
fold's initial accumulator `Vec::with_capacity(8 * (points.len() - 1))`
is evaluated even though there are no offsets to fold over, and the
`usize` subtraction `0 - 1` overflows. On a single-point line the
function does return the empty sequence. -/
theorem segment_quads_empty_line_panics :
    segment_quads emptyLine = none ∧ segment_quads singlePointLine = some [] := by
  decide

/-- C3: for a non-highlighter line and a layer index at or beyond the
palette length, `line_to_css_color` returns the structurally-default
`LayerColor`'s string for the line's semantic color, which is the empty
string. -/
theorem line_to_css_color_out_of_range_default (line : Line) (layer_idx : ℕ)
    (layer_colors : List LayerColor)
    (hb : line.brush_type ≠ BrushType.highlighter)
    (hl : layer_colors.length ≤ layer_idx) :
    line_to_css_color line layer_idx layer_colors = "" := by
  obtain ⟨pts, c, bt⟩ := line
  have hnone : layer_colors[layer_idx]? = none := by
    exact List.getElem?_eq_none hl
  unfold line_to_css_color
  rw [hnone]
  cases bt with
  | highlighter => exact absurd rfl hb
  | pen => cases c <;> rfl
  | eraser => cases c <;> rfl

/-- Witness for C3 at a concrete input: a black pen line, layer index 0,
empty palette. -/
theorem line_to_css_color_out_of_range_default_witness :
    line_to_css_color emptyLine 0 [] = "" :=
  line_to_css_color_out_of_range_default emptyLine 0 [] (by decide) (by decide)

/-- C4: for every highlighter line, every layer index, and every
palette, `line_to_css_color` returns the fixed highlight color string
"rgb(240, 220, 40)". -/
theorem line_to_css_color_highlighter_fixed (line : Line) (layer_idx : ℕ)
    (layer_colors : List LayerColor)
    (hb : line.brush_type = BrushType.highlighter) :
    line_to_css_color line layer_idx layer_colors = "rgb(240, 220, 40)" := by
  obtain ⟨pts, c, bt⟩ := line
  cases hb
  rfl

/-- Witness for C4 at a concrete input: a blue highlighter line on layer
index 2 with a one-entry palette. -/
theorem line_to_css_color_highlighter_fixed_witness :
    line_to_css_color { points := [], color := Color.blue, brush_type := BrushType.highlighter } 2
      [LayerColor.default] = "rgb(240, 220, 40)" :=
  line_to_css_color_highlighter_fixed _ 2 [LayerColor.default] rfl

theorem consPairs_length {α : Type} (l : List α) : (consPairs l).length = l.length - 1 := by
  induction l with
  | nil => rfl
  | cons a t ih =>
    cases t with
    | nil => rfl
    | cons b r =>
      simp only [consPairs, List.length_cons] at ih ⊢
      omega

theorem foldl_quadCoords_length (xs : List ((Point × Point) × Vec2)) (init : List F) :
    (xs.foldl (fun coords x => coords ++ quadCoords x.1.1 x.1.2 x.2) init).length
      = init.length + 8 * xs.length := by
  induction xs generalizing init with
  | nil => simp
  | cons x t ih =>
    rw [List.foldl_cons, ih]
    simp [quadCoords]
    ring

/-- C5: for every line with at least 2 points, `segment_quads` succeeds
and the coordinate sequence has length exactly 8 × (number of points − 1),
hence always a multiple of 8. -/
theorem segment_quads_length_eight_per_segment (line : Line) (h : 2 ≤ line.points.length) :
    ∃ out, segment_quads line = some out ∧ out.length = 8 * (line.points.length - 1) := by
  obtain ⟨a, t, hp⟩ : ∃ a t, line.points = a :: t := by
    cases hp : line.points with
    | nil => rw [hp] at h; simp at h
    | cons a t => exact ⟨a, t, rfl⟩
  unfold segment_quads
  rw [hp]
  simp only [List.isEmpty_cons, Bool.false_eq_true, if_false]
  refine ⟨_, rfl, ?_⟩
  rw [foldl_quadCoords_length]
  simp [Line.offsets, hp, consPairs_length]

/-- Witness for C5 at the reference line (3 points, 16 coordinates). -/
theorem segment_quads_length_eight_per_segment_witness :
    ∃ out, segment_quads referenceLine = some out ∧
      out.length = 8 * (referenceLine.points.length - 1) :=
  segment_quads_length_eight_per_segment referenceLine (by decide)

/-- C6: enclosing a point (x, y) of width w into the empty box yields
the box (x − w/2, y − w/2, x + w/2, y + w/2); so does enclosing a
single-point line built from it, and that box has size exactly w × w. -/
theorem enclose_point_empty_box_square (x y w : ℚ) (pr : F) :
    BoundingBox.new.enclose_point ⟨F.fin x, F.fin y, F.fin w, pr⟩ =
      ⟨F.fin (x - w / 2), F.fin (y - w / 2), F.fin (x + w / 2), F.fin (y + w / 2)⟩ ∧
    (∀ c bt, BoundingBox.new.enclose_line ⟨[⟨F.fin x, F.fin y, F.fin w, pr⟩], c, bt⟩ =
      ⟨F.fin (x - w / 2), F.fin (y - w / 2), F.fin (x + w / 2), F.fin (y + w / 2)⟩) ∧
    fsub (F.fin (x + w / 2)) (F.fin (x - w / 2)) = F.fin w ∧
    fsub (F.fin (y + w / 2)) (F.fin (y - w / 2)) = F.fin w := by
  refine ⟨?_, fun c bt => ?_, ?_, ?_⟩ <;>
    simp only [BoundingBox.new, BoundingBox.enclose_point, BoundingBox.enclose_line,
      List.foldl_cons, List.foldl_nil, fmin, fmax, fsub, fadd, fneg, fmul,
      BoundingBox.mk.injEq, F.fin.injEq] <;>
    and_intros <;> ring

theorem fmin_comm (a b : F) : fmin a b = fmin b a := by
  cases a <;> cases b <;> simp [fmin, min_comm]

theorem fmin_assoc (a b c : F) : fmin (fmin a b) c = fmin a (fmin b c) := by
  cases a <;> cases b <;> cases c <;> simp [fmin, min_assoc]

theorem fmax_comm (a b : F) : fmax a b = fmax b a := by
  cases a <;> cases b <;> simp [fmax, max_comm]

theorem fmax_assoc (a b c : F) : fmax (fmax a b) c = fmax a (fmax b c) := by
  cases a <;> cases b <;> cases c <;> simp [fmax, max_assoc]

theorem fmin_left_comm (a b c : F) : fmin a (fmin b c) = fmin b (fmin a c) := by
  rw [← fmin_assoc, fmin_comm a b, fmin_assoc]

theorem fmax_left_comm (a b c : F) : fmax a (fmax b c) = fmax b (fmax a c) := by
  rw [← fmax_assoc, fmax_comm a b, fmax_assoc]

theorem enclose_point_right_comm (b : BoundingBox) (p q : Point) :
    (b.enclose_point p).enclose_point q = (b.enclose_point q).enclose_point p := by
  simp [BoundingBox.enclose_point, fmin_assoc, fmax_assoc, fmin_comm, fmax_comm,
    fmin_left_comm, fmax_left_comm]

/-- C7: the box produced by `enclose_line` is invariant under
permutation of the line's points: two lines whose point multisets agree
give the same result from any starting box. -/
theorem enclose_line_perm_invariant (b : BoundingBox) (l1 l2 : Line)
    (h : l1.points.Perm l2.points) :
    b.enclose_line l1 = b.enclose_line l2 := by
  unfold BoundingBox.enclose_line
  exact h.foldl_eq' (fun x _ y _ z => enclose_point_right_comm z x y) b

/-- Witness for C7: swapping two concrete points gives the same box. -/
theorem enclose_line_perm_invariant_witness :
    BoundingBox.new.enclose_line ⟨[permPointA, permPointB], Color.black, BrushType.pen⟩ =
      BoundingBox.new.enclose_line ⟨[permPointB, permPointA], Color.black, BrushType.pen⟩ :=
  enclose_line_perm_invariant _ _ _ (List.Perm.swap permPointB permPointA [])

theorem foldl_fixed {α β : Type} (f : β → α → β) (l : List α)
    (hf : ∀ x ∈ l, ∀ b, f b x = b) : ∀ b, l.foldl f b = b := by
  induction l with
  | nil => intro b; rfl
  | cons a t ih =>
    intro b
    rw [List.foldl_cons, hf a (by simp)]
    exact ih (fun x hx b => hf x (by simp [hx]) b) b

/-- C8: `enclose_page` over a page with no points returns the empty-box
sentinel when started from it, and leaves any box unchanged, so repeated
application changes nothing. -/
theorem enclose_page_empty_page_identity (page : Page) (h : page.noPoints) :
    BoundingBox.new.enclose_page page = BoundingBox.new ∧
    ∀ b : BoundingBox, b.enclose_page page = b := by
  have hall : ∀ b : BoundingBox, b.enclose_page page = b := by
    intro b
    unfold BoundingBox.enclose_page
    refine foldl_fixed _ _ ?_ b
    intro layer hlayer b1
    refine foldl_fixed _ _ ?_ b1
    intro line hline b2
    unfold BoundingBox.enclose_line
    rw [h layer hlayer line hline]
    rfl
  exact ⟨hall _, hall⟩

/-- Witness for C8: a concrete page with an empty layer and a layer
holding one zero-point line. -/
theorem enclose_page_empty_page_identity_witness :
    BoundingBox.new.enclose_page ⟨[⟨[]⟩, ⟨[emptyLine]⟩]⟩ = BoundingBox.new :=
  (enclose_page_empty_page_identity ⟨[⟨[]⟩, ⟨[emptyLine]⟩]⟩
    (by unfold Page.noPoints; decide)).1

theorem fmin_ne_nan (a v : F) (h : a ≠ F.nan) : fmin a v ≠ F.nan := by
  cases a <;> cases v <;> simp_all [fmin]

theorem fmax_ne_nan (a v : F) (h : a ≠ F.nan) : fmax a v ≠ F.nan := by
  cases a <;> cases v <;> simp_all [fmax]

theorem fle_refl (a : F) (h : a ≠ F.nan) : fle a a = true := by
  cases a <;> simp_all [fle]

theorem fle_trans (a b c : F) (h1 : fle a b = true) (h2 : fle b c = true) :
    fle a c = true := by
  cases a <;> cases b <;> cases c <;> simp_all [fle]
  exact le_trans h1 h2

theorem fle_fmin (a v : F) (h : a ≠ F.nan) : fle (fmin a v) a = true := by
  cases a <;> cases v <;> simp_all [fmin, fle, min_le_left]

theorem fle_fmax (a v : F) (h : a ≠ F.nan) : fle a (fmax a v) = true := by
  cases a <;> cases v <;> simp_all [fmax, fle, le_max_left]

theorem grows_refl (b : BoundingBox) (h : b.noNaN) : grows b b :=
  ⟨fle_refl _ h.1, fle_refl _ h.2.1, fle_refl _ h.2.2.1, fle_refl _ h.2.2.2⟩

theorem grows_trans {b1 b2 b3 : BoundingBox} (h1 : grows b1 b2) (h2 : grows b2 b3) :
    grows b1 b3 :=
  ⟨fle_trans _ _ _ h2.1 h1.1, fle_trans _ _ _ h2.2.1 h1.2.1,
   fle_trans _ _ _ h1.2.2.1 h2.2.2.1, fle_trans _ _ _ h1.2.2.2 h2.2.2.2⟩

theorem enclose_point_noNaN (b : BoundingBox) (p : Point) (h : b.noNaN) :
    (b.enclose_point p).noNaN :=
  ⟨fmin_ne_nan _ _ h.1, fmin_ne_nan _ _ h.2.1, fmax_ne_nan _ _ h.2.2.1, fmax_ne_nan _ _ h.2.2.2⟩

theorem enclose_point_grows (b : BoundingBox) (p : Point) (h : b.noNaN) :
    grows b (b.enclose_point p) :=
  ⟨fle_fmin _ _ h.1, fle_fmin _ _ h.2.1, fle_fmax _ _ h.2.2.1, fle_fmax _ _ h.2.2.2⟩

theorem foldl_grows {α : Type} (f : BoundingBox → α → BoundingBox)
    (hnn : ∀ b x, BoundingBox.noNaN b → BoundingBox.noNaN (f b x))
    (hg : ∀ b x, BoundingBox.noNaN b → grows b (f b x)) :
    ∀ (l : List α) (b : BoundingBox), b.noNaN →
      grows b (l.foldl f b) ∧ (l.foldl f b).noNaN := by
  intro l
  induction l with
  | nil => intro b hb; exact ⟨grows_refl b hb, hb⟩
  | cons x t ih =>
    intro b hb
    rw [List.foldl_cons]
    have h1 := hg b x hb
    have h2 := hnn b x hb
    have h3 := ih (f b x) h2
    exact ⟨grows_trans h1 h3.1, h3.2⟩

theorem enclose_line_grows (b : BoundingBox) (l : Line) (h : b.noNaN) :
    grows b (b.enclose_line l) ∧ (b.enclose_line l).noNaN :=
  foldl_grows BoundingBox.enclose_point enclose_point_noNaN enclose_point_grows l.points b h

theorem enclose_page_grows (b : BoundingBox) (pg : Page) (h : b.noNaN) :
    grows b (b.enclose_page pg) ∧ (b.enclose_page pg).noNaN := by
  unfold BoundingBox.enclose_page
  exact foldl_grows (fun b layer => layer.lines.foldl BoundingBox.enclose_line b)
    (fun b layer hb =>
      (foldl_grows BoundingBox.enclose_line
        (fun b l hb => (enclose_line_grows b l hb).2)
        (fun b l hb => (enclose_line_grows b l hb).1) layer.lines b hb).2)
    (fun b layer hb =>
      (foldl_grows BoundingBox.enclose_line
        (fun b l hb => (enclose_line_grows b l hb).2)
        (fun b l hb => (enclose_line_grows b l hb).1) layer.lines b hb).1)
    pg.layers b h

/-- C9 counterexample: for the box whose min_x field is NaN and the
origin point of width 0, the enclosed box's min_x (which is 0, since
`f32::min` drops the NaN operand) is not `fle`-below the original NaN
min_x — IEEE comparisons with NaN are false — so the claim read over all
f32 boxes fails. -/
theorem enclose_monotone_nan_counterexample :
    fle ((BoundingBox.enclose_point ⟨F.nan, F.fin 0, F.fin 0, F.fin 0⟩
        ⟨F.fin 0, F.fin 0, F.fin 0, F.fin 0⟩).min_x)
      (BoundingBox.mk F.nan (F.fin 0) (F.fin 0) (F.fin 0)).min_x = false := by
  decide

/-- C9 (amended): for every box b none of whose fields is NaN, and every
point, line, or page, the enclosed box satisfies min_x ≤ b.min_x,
min_y ≤ b.min_y, max_x ≥ b.max_x, max_y ≥ b.max_y — enclosing never
shrinks the box in any direction. -/
theorem enclose_monotone_no_nan (b : BoundingBox) (hb : b.noNaN) :
    (∀ p : Point, grows b (b.enclose_point p)) ∧
    (∀ l : Line, grows b (b.enclose_line l)) ∧
    (∀ pg : Page, grows b (b.enclose_page pg)) :=
  ⟨fun p => enclose_point_grows b p hb,
   fun l => (enclose_line_grows b l hb).1,
   fun pg => (enclose_page_grows b pg hb).1⟩

/-- Witness for the amended C9: the sentinel box is NaN-free and
enclosing a concrete point satisfies all four inequalities. -/
theorem enclose_monotone_no_nan_witness :
    grows BoundingBox.new (BoundingBox.new.enclose_point permPointA) :=
  (enclose_monotone_no_nan BoundingBox.new
    (by unfold BoundingBox.noNaN BoundingBox.new; decide)).1 permPointA

theorem fmin_nan_right (a : F) : fmin a F.nan = a := by cases a <;> rfl

theorem fmax_nan_right (a : F) : fmax a F.nan = a := by cases a <;> rfl

/-- C10: starting from `BoundingBox::new`, no sequence of enclose_point,
enclose_line, or enclose_page applications produces a box with a NaN
field, because `f32::min`/`f32::max` return the non-NaN argument; a
point whose contribution to a field is NaN leaves that field unchanged;
and a page all of whose point contributions are NaN leaves the empty-box
sentinel unchanged. -/
theorem enclose_no_nan_invariant :
    (∀ ops : List EncloseOp, (ops.foldl applyOp BoundingBox.new).noNaN) ∧
    (∀ (b : BoundingBox) (p : Point),
      (fsub p.x (fmul (F.fin (1/2)) p.width) = F.nan →
        (b.enclose_point p).min_x = b.min_x) ∧
      (fsub p.y (fmul (F.fin (1/2)) p.width) = F.nan →
        (b.enclose_point p).min_y = b.min_y) ∧
      (fadd p.x (fmul (F.fin (1/2)) p.width) = F.nan →
        (b.enclose_point p).max_x = b.max_x) ∧
      (fadd p.y (fmul (F.fin (1/2)) p.width) = F.nan →
        (b.enclose_point p).max_y = b.max_y)) ∧
    (∀ page : Page, page.allContributionsNaN →
      BoundingBox.new.enclose_page page = BoundingBox.new) := by
  have hnew : BoundingBox.new.noNaN := ⟨by decide, by decide, by decide, by decide⟩
  have hstep : ∀ (b : BoundingBox) (op : EncloseOp), b.noNaN → (applyOp b op).noNaN := by
    intro b op hb
    cases op with
    | pt p => exact enclose_point_noNaN b p hb
    | ln l => exact (enclose_line_grows b l hb).2
    | pg p => exact (enclose_page_grows b p hb).2
  refine ⟨?_, ?_, ?_⟩
  · have hfold : ∀ (ops : List EncloseOp) (b : BoundingBox), b.noNaN →
        (ops.foldl applyOp b).noNaN := by
      intro ops
      induction ops with
      | nil => intro b hb; exact hb
      | cons op t ih =>
        intro b hb
        rw [List.foldl_cons]
        exact ih _ (hstep b op hb)
    exact fun ops => hfold ops BoundingBox.new hnew
  · intro b p
    refine ⟨fun h => ?_, fun h => ?_, fun h => ?_, fun h => ?_⟩ <;>
      simp only [one_div] at h <;>
      simp [BoundingBox.enclose_point, h, fmin_nan_right, fmax_nan_right]
  · intro page h
    unfold BoundingBox.enclose_page
    refine foldl_fixed _ _ ?_ _
    intro layer hlayer b1
    refine foldl_fixed _ _ ?_ b1
    intro line hline b2
    unfold BoundingBox.enclose_line
    refine foldl_fixed _ _ ?_ b2
    intro pt hpt b3
    have hc := h layer hlayer line hline pt hpt
    simp only [one_div] at hc
    simp [BoundingBox.enclose_point, hc.1, hc.2.1, hc.2.2.1, hc.2.2.2,
      fmin_nan_right, fmax_nan_right]

/-- Witness for C10: a page holding one line with one NaN-width point
leaves the sentinel unchanged, and that point leaves a concrete box's
min_x unchanged. -/
theorem enclose_no_nan_invariant_witness :
    BoundingBox.new.enclose_page ⟨[⟨[⟨[nanPoint], Color.black, BrushType.pen⟩]⟩]⟩ =
      BoundingBox.new ∧
    (BoundingBox.new.enclose_point nanPoint).min_x = BoundingBox.new.min_x :=
  ⟨enclose_no_nan_invariant.2.2 _ (by unfold Page.allContributionsNaN; decide),
   (enclose_no_nan_invariant.2.1 BoundingBox.new nanPoint).1 (by decide)⟩

end LinesAreRusty
